import Mathlib

/-!
# ThreadPool.cpp: stack-size channel, threaded pool, sequential fallback

A shallow embedding of `llvm/lib/Support/ThreadPool.cpp`.

* The stack-size channel (`__libcpp_thread_setstacksize`, `_M_thread_setstacksize`,
  `_thread_setstacksize` and the spawn preludes that read them) is embedded as pure
  functions that pass the thread-local slot `__s_` explicitly.
* The threaded pool is embedded as a step function over the pool's shared state
  (`Tasks`, `ActiveThreads`, `EnableFlag`) and the control point of each worker;
  every section of code that runs under `QueueLock` is one atomic step.
* The sequential fallback is embedded as functions over the queue and the deferred
  futures.
-/

namespace ThreadPool

/-! ## Stack-size channel -/

/-- The thread-local slot `__s_` together with the value a call returns. -/
structure SlotResult where
  /-- the value of `__r`, returned by the call -/
  ret : Nat
  /-- the value of the thread-local `__s_` after the call -/
  slot : Nat
deriving DecidableEq, Repr

/-- The function `__libcpp_thread_setstacksize(__s = 0)` (libc++ variant), with the thread-local
`__s_` passed in as `slot`; `PTHREAD_STACK_MIN` comes from the platform headers and is
a parameter. -/
def __libcpp_thread_setstacksize (PTHREAD_STACK_MIN : Nat) (slot : Nat) (__s : Nat) :
    SlotResult :=
  let __s := if __s < PTHREAD_STACK_MIN && __s != 0 then PTHREAD_STACK_MIN else __s
  let __r := slot
  { ret := __r, slot := __s }

/-- The function `_M_thread_setstacksize(__s = 0)` (libstdc++ variant). -/
def _M_thread_setstacksize (PTHREAD_STACK_MIN : Nat) (slot : Nat) (__s : Nat) :
    SlotResult :=
  let __s := if __s < PTHREAD_STACK_MIN && __s != 0 then PTHREAD_STACK_MIN else __s
  let __r := slot
  { ret := __r, slot := __s }

/-- The function `_thread_setstacksize(__s = 0)` (MSVC variant): the minimum is the literal 65536. -/
def _thread_setstacksize (slot : Nat) (__s : Nat) : SlotResult :=
  let __s := if __s < 65536 && __s != 0 then 65536 else __s
  let __r := slot
  { ret := __r, slot := __s }

/-- What a spawn prelude hands to the platform: the stack size it read from the slot
(`__s`), the attribute it applied (`none` when `if (__s)` skipped
`pthread_attr_setstacksize`), and the slot afterwards. -/
structure Prelude where
  /-- the value the prelude read from the slot -/
  obtained : Nat
  /-- the stack-size attribute applied to the creation call, if any -/
  attr : Option Nat
  /-- the thread-local slot after the prelude -/
  slot : Nat
deriving DecidableEq, Repr

/-- The part of `__libcpp_thread_create_ex` before `pthread_create`: read the slot with
the setter's default argument 0 and apply the attribute when the value is non-zero. -/
def __libcpp_thread_create_ex_prelude (PTHREAD_STACK_MIN : Nat) (slot : Nat) : Prelude :=
  let r := __libcpp_thread_setstacksize PTHREAD_STACK_MIN slot 0
  let __s := r.ret
  { obtained := __s, attr := if __s != 0 then some __s else none, slot := r.slot }

/-- The part of `thread::_M_start_thread_ex` before `pthread_create`. -/
def _M_start_thread_ex_prelude (PTHREAD_STACK_MIN : Nat) (slot : Nat) : Prelude :=
  let r := _M_thread_setstacksize PTHREAD_STACK_MIN slot 0
  let __s := r.ret
  { obtained := __s, attr := if __s != 0 then some __s else none, slot := r.slot }

/-- The macro `_beginthreadex(a,b,c,d,e,f)` rewritten to
`_beginthreadex(a,_thread_setstacksize(),c,d,e,f)`: the stack-size argument is the value
read from the slot; 0 asks the platform for its default. -/
def _beginthreadex_prelude (slot : Nat) : Prelude :=
  let r := _thread_setstacksize slot 0
  let __s := r.ret
  { obtained := __s, attr := if __s != 0 then some __s else none, slot := r.slot }

/-- The function `stacking_thread(__s, __f, __args...)` of the libc++ variant, up to the creation
call: `__libcpp_thread_setstacksize(__s)` with the return value dropped, then
`thread(__f, __args...)`, whose creation call is `__libcpp_thread_create_ex`. -/
def libcpp_stacking_thread (PTHREAD_STACK_MIN : Nat) (slot : Nat) (__s : Nat) : Prelude :=
  __libcpp_thread_create_ex_prelude PTHREAD_STACK_MIN
    (__libcpp_thread_setstacksize PTHREAD_STACK_MIN slot __s).slot

/-- The function `stacking_thread(__s, __f, __args...)` of the libstdc++ variant, up to the creation
call: `_M_thread_setstacksize(__s)`, then `thread(__f, __args...)`, which starts the
thread through `_M_start_thread_ex`. -/
def glibcxx_stacking_thread (PTHREAD_STACK_MIN : Nat) (slot : Nat) (__s : Nat) : Prelude :=
  _M_start_thread_ex_prelude PTHREAD_STACK_MIN
    (_M_thread_setstacksize PTHREAD_STACK_MIN slot __s).slot

/-- The function `stacking_thread(__s, __f, __args...)` of the MSVC variant, up to the creation call:
`_thread_setstacksize(__s)`, then `thread(__f, __args...)`, which calls the rewritten
`_beginthreadex`. -/
def msvc_stacking_thread (slot : Nat) (__s : Nat) : Prelude :=
  _beginthreadex_prelude (_thread_setstacksize slot __s).slot

/-! ## The threaded pool (`LLVM_ENABLE_THREADS` on) -/

/-- A queued task. The pool never looks inside a `PackagedTaskTy`; a task is identified
by a number chosen by the submitter. -/
abbrev PackagedTaskTy := Nat

/-- Control point of one worker thread, between two atomic sections of its loop. -/
inductive Worker where
  /-- spawned; `S.apply_thread_strategy(ThreadID)` has not run yet -/
  | starting
  /-- at the top of `while (true)`, or blocked in `QueueCondition.wait`; lock not held -/
  | idle
  /-- left the first locked section holding `Task`; `Task()` has not returned -/
  | running (Task : PackagedTaskTy)
  /-- the call `Task()` has returned; the section with `--ActiveThreads` has not run yet -/
  | finalising
  /-- left the second locked section with `Notify` computed; before `if (Notify)` -/
  | notifying (Notify : Bool)
  /-- took the `return` of the exit condition -/
  | exited
deriving DecidableEq, Repr

/-- The state shared under `QueueLock`, and the workers in `Threads`. -/
structure Pool where
  /-- the queue `Tasks`, front first -/
  Tasks : List PackagedTaskTy
  /-- the counter `ActiveThreads` -/
  ActiveThreads : Nat
  /-- the flag `EnableFlag` -/
  EnableFlag : Bool
  /-- the workers, by `ThreadID` -/
  Threads : List Worker
deriving DecidableEq, Repr

/-- Modelled from the spec: the declaration of `ActiveThreads` is in `ThreadPool.h`, which
is not among the sources. The spec calls it a non-negative integer counter; it is taken
as an `unsigned` of 32 bits, so that `++` and `--` are arithmetic modulo this value. -/
def UNSIGNED_MODULUS : Nat := 2 ^ 32

/-- Modelled from the spec: `workCompletedUnlocked()` is defined in `ThreadPool.h`, which
is not among the sources. The spec gives the predicate `wait()` waits for, and the value
of `notify`, as `Queue.empty() ∧ ActiveCount == 0`. -/
def workCompletedUnlocked (s : Pool) : Bool :=
  s.Tasks.isEmpty && s.ActiveThreads == 0

/-- Modelled from the spec: the member initialisers are in `ThreadPool.h`, which is not
among the sources. The spec gives `EnableFlag := true; ActiveCount := 0; queue empty`.
The state after `ThreadPool::ThreadPool` has spawned `ThreadCount` workers. -/
def ThreadPool_init (ThreadCount : Nat) : Pool :=
  { Tasks := [], ActiveThreads := 0, EnableFlag := true,
    Threads := List.replicate ThreadCount Worker.starting }

/-- What a step lets an observer see. -/
inductive Event where
  /-- the statement `Tasks.push(std::move(PackagedTask))` in `asyncImpl` -/
  | pushed (Task : PackagedTaskTy)
  /-- the statements `Task = std::move(Tasks.front()); Tasks.pop();` in worker `ThreadID` -/
  | popped (ThreadID : Nat) (Task : PackagedTaskTy)
  /-- the call `Task()` returned in worker `ThreadID` -/
  | returned (ThreadID : Nat) (Task : PackagedTaskTy)
  /-- the statement `--ActiveThreads` executed by worker `ThreadID` -/
  | decremented (ThreadID : Nat)
  /-- worker `ThreadID` took `return` -/
  | exited (ThreadID : Nat)
  /-- a call of `ThreadPool::wait()` returned -/
  | waitReturned
deriving DecidableEq, Repr

/-- The failure of `assert(EnableFlag && "Queuing a thread during ThreadPool
destruction")`. -/
inductive Fatal where
  /-- the assertion in `asyncImpl` failed -/
  | assertEnableFlag
deriving DecidableEq, Repr

/-- The function `ThreadPool::asyncImpl` (threaded build), its locked section: the
assertion on `EnableFlag`, then `Tasks.push`. A failed `assert` ends the call with
`Except.error` (assertions enabled). The `notify_one` that follows and the returned
future do not touch the pool state. -/
def asyncImpl (s : Pool) (Task : PackagedTaskTy) : Except Fatal Pool :=
  if s.EnableFlag then
    Except.ok { s with Tasks := s.Tasks ++ [Task] }
  else
    Except.error Fatal.assertEnableFlag

/-- One atomic section of worker `ThreadID`, chosen by its control point.

* `idle`: the section under `LockGuard`. `QueueCondition.wait` lets the worker go on only
  when `!EnableFlag || !Tasks.empty()`; otherwise the worker blocks again, unchanged.
  Then the exit condition, then `++ActiveThreads`, `Tasks.front()`, `Tasks.pop()`.
  `Tasks.front()` on an empty queue has no defined result (`none`); the two conditions
  before it exclude that case (`workerStep_eq_none_iff`).
* `running`: `Task()` returns.
* `finalising`: the section with `--ActiveThreads; Notify = workCompletedUnlocked();`.
* `notifying`: `if (Notify) CompletionCondition.notify_all();` and back to the loop top.
-/
def workerStep (s : Pool) (ThreadID : Nat) : Option (Pool × List Event) :=
  match s.Threads[ThreadID]? with
  | none => none
  | some Worker.starting =>
      some ({ s with Threads := s.Threads.set ThreadID Worker.idle }, [])
  | some Worker.idle =>
      if !(!s.EnableFlag || !s.Tasks.isEmpty) then
        some (s, [])
      else if !s.EnableFlag && s.Tasks.isEmpty then
        some ({ s with Threads := s.Threads.set ThreadID Worker.exited },
              [Event.exited ThreadID])
      else
        match s.Tasks with
        | [] => none
        | Task :: rest =>
            some ({ s with ActiveThreads := (s.ActiveThreads + 1) % UNSIGNED_MODULUS,
                           Tasks := rest,
                           Threads := s.Threads.set ThreadID (Worker.running Task) },
                  [Event.popped ThreadID Task])
  | some (Worker.running Task) =>
      some ({ s with Threads := s.Threads.set ThreadID Worker.finalising },
            [Event.returned ThreadID Task])
  | some Worker.finalising =>
      let s1 : Pool :=
        { s with ActiveThreads := (s.ActiveThreads + UNSIGNED_MODULUS - 1) % UNSIGNED_MODULUS }
      let Notify := workCompletedUnlocked s1
      some ({ s1 with Threads := s1.Threads.set ThreadID (Worker.notifying Notify) },
            [Event.decremented ThreadID])
  | some (Worker.notifying _) =>
      some ({ s with Threads := s.Threads.set ThreadID Worker.idle }, [])
  | some Worker.exited => none

/-- The function `ThreadPool::wait()` (threaded build): one evaluation of the predicate
of `CompletionCondition.wait` under the lock. The call returns when the predicate holds
and blocks again, unchanged, when it does not. -/
def wait (s : Pool) : Pool × List Event :=
  if workCompletedUnlocked s then (s, [Event.waitReturned]) else (s, [])

/-- The destructor `ThreadPool::~ThreadPool()`, its locked section: `EnableFlag = false`. -/
def destroy (s : Pool) : Pool :=
  { s with EnableFlag := false }

/-- What the environment can make the pool do next. -/
inductive Action where
  /-- some thread calls `asyncImpl(Task)` -/
  | asyncImpl (Task : PackagedTaskTy)
  /-- worker `ThreadID` runs its next atomic section -/
  | worker (ThreadID : Nat)
  /-- a thread inside `wait()` evaluates the predicate -/
  | wait
  /-- the destructor runs its locked section -/
  | destroy
deriving DecidableEq, Repr

/-- The step function of the threaded pool. `none` means the action cannot happen in
this state (no such worker, a worker that has returned, a failed assertion). -/
def step (s : Pool) : Action → Option (Pool × List Event)
  | Action.asyncImpl Task =>
      match asyncImpl s Task with
      | Except.ok s' => some (s', [Event.pushed Task])
      | Except.error _ => none
  | Action.worker ThreadID => workerStep s ThreadID
  | Action.wait => some (wait s)
  | Action.destroy => some (destroy s, [])

/-- Runs a schedule from a state, collecting the events in order. -/
def run (s : Pool) (tr : List Event) : List Action → Option (Pool × List Event)
  | [] => some (s, tr)
  | a :: as =>
      match step s a with
      | none => none
      | some (s', ev) => run s' (tr ++ ev) as

/-- States reachable from the constructed pool of `ThreadCount` workers, with the events
seen on the way. -/
inductive Reach (ThreadCount : Nat) : List Event → Pool → Prop where
  | init : Reach ThreadCount [] (ThreadPool_init ThreadCount)
  | step {tr : List Event} {s s' : Pool} {ev : List Event} (a : Action) :
      Reach ThreadCount tr s → step s a = some (s', ev) → Reach ThreadCount (tr ++ ev) s'

/-- The task of a `pushed` event. -/
def Event.pushedTask : Event → Option PackagedTaskTy
  | Event.pushed Task => some Task
  | _ => none

/-- The task of a `popped` event. -/
def Event.poppedTask : Event → Option PackagedTaskTy
  | Event.popped _ Task => some Task
  | _ => none

/-- The task of a `returned` event. -/
def Event.returnedTask : Event → Option PackagedTaskTy
  | Event.returned _ Task => some Task
  | _ => none

/-- The tasks pushed by `asyncImpl`, in push order. -/
def pushedTasks (tr : List Event) : List PackagedTaskTy :=
  tr.filterMap Event.pushedTask

/-- The tasks popped by workers, in pop order. -/
def poppedTasks (tr : List Event) : List PackagedTaskTy :=
  tr.filterMap Event.poppedTask

/-- The tasks whose body has returned, in order of return. -/
def returnedTasks (tr : List Event) : List PackagedTaskTy :=
  tr.filterMap Event.returnedTask

/-- The task a worker holds between popping it and the return of its body. -/
def Worker.heldTask : Worker → Option PackagedTaskTy
  | Worker.running Task => some Task
  | _ => none

/-- The worker has popped a task and has not yet executed the `--ActiveThreads` that
follows the task. -/
def Worker.inFlight : Worker → Bool
  | Worker.running _ => true
  | Worker.finalising => true
  | _ => false

/-- The tasks held by running workers, by `ThreadID`. -/
def heldTasks (Threads : List Worker) : List PackagedTaskTy :=
  Threads.filterMap Worker.heldTask

/-- The number of workers that have popped a task and not yet executed the
`--ActiveThreads` that follows it. -/
def inFlightCount (Threads : List Worker) : Nat :=
  Threads.countP Worker.inFlight

/-- The history invariant: it relates the events seen so far to the queue and to the
workers, and does not mention `ActiveThreads`. -/
structure HistInv (N : Nat) (tr : List Event) (s : Pool) : Prop where
  len : s.Threads.length = N
  fifo : pushedTasks tr = poppedTasks tr ++ s.Tasks
  held : (poppedTasks tr).Perm (returnedTasks tr ++ heldTasks s.Threads)
  gone : Worker.exited ∈ s.Threads → s.EnableFlag = false ∧ s.Tasks = []

/-- A schedule for a pool of one worker: one task is submitted, then the worker starts,
pops it, runs it and executes the `--ActiveThreads` section. -/
def scheduleOneTask : List Action :=
  [Action.asyncImpl 7, Action.worker 0, Action.worker 0, Action.worker 0, Action.worker 0]

/-! ## Construction and destruction of the threaded pool (libstdc++ variant) -/

/-- A thread emplaced in `Threads`, with the stack-size attribute it was created with. -/
structure Thread where
  /-- the index captured by the worker lambda -/
  ThreadID : Nat
  /-- the stack size passed to `pthread_attr_setstacksize`, if the prelude applied one -/
  stack : Option Nat
deriving DecidableEq, Repr

/-- The calls that construction and destruction make on threads and on the pool. -/
inductive LifeEvent where
  /-- the call `pthread_create` returned 0 for worker `ThreadID` -/
  | spawned (ThreadID : Nat) (stack : Option Nat)
  /-- the call `__throw_system_error(err)` -/
  | system_error (err : Nat)
  /-- the assignment `EnableFlag = false` under `QueueLock` -/
  | EnableFlag_false
  /-- the call `QueueCondition.notify_all()` -/
  | notify_all
  /-- the call `Worker.join()` on worker `ThreadID` -/
  | join (ThreadID : Nat)
  /-- the call `std::terminate()` made by `~thread()` on a joinable thread -/
  | terminate
deriving DecidableEq, Repr

/-- The constructor's progress: the threads emplaced so far, the stack-size slot of the
constructing thread, the system error that left the constructor (if any), whether the
process was terminated, and the calls made so far. -/
structure Construction where
  /-- the vector `Threads`: the workers spawned, none of them joined -/
  Threads : List Thread
  /-- the thread-local `__s_` of the constructing thread -/
  slot : Nat
  /-- the error thrown out of the constructor to its caller, if any -/
  error : Option Nat
  /-- whether `std::terminate()` was called during construction -/
  terminated : Bool
  /-- the calls made, in order -/
  events : List LifeEvent
deriving DecidableEq, Repr

/-- The way out of the constructor body after `__throw_system_error(err)`. The constructor
has no handler, so the exception unwinds it; the destructor `~ThreadPool()` does not run
for a pool whose constructor did not finish, but the members already built are
destroyed, the vector `Threads` among them. No worker has been joined, so every element
of `Threads` is joinable, and `~thread()` on a joinable thread calls `std::terminate()`
(the behaviour the C++ standard gives `std::thread`): the process ends and the error
reaches nobody. Only with `Threads` empty does the error leave the constructor. -/
def ThreadPool_ctor_unwind (c : Construction) (err : Nat) : Construction :=
  match c.Threads with
  | [] => { c with error := some err }
  | _ :: _ => { c with terminated := true, events := c.events ++ [LifeEvent.terminate] }

/-- The loop `for (unsigned ThreadID = 0; ThreadID < ThreadCount; ++ThreadID)` of
`ThreadPool::ThreadPool`, from the iteration `ThreadID` on. Each iteration calls
`std::stacking_thread(8*1024*1024, ...)`; the thread is started by
`thread::_M_start_thread_ex`, whose `pthread_create` returns `pthread_create ThreadID`
(a parameter: 0 or an error number). A non-zero value is thrown by
`__throw_system_error` before `emplace_back` is entered; what follows the throw is
`ThreadPool_ctor_unwind`. `ThreadID < ThreadCount` and `ThreadCount` is an `unsigned`, so `++ThreadID` does not
wrap. -/
def ThreadPool_ctor_loop (PTHREAD_STACK_MIN : Nat) (pthread_create : Nat → Nat)
    (ThreadCount : Nat) (ThreadID : Nat) (c : Construction) : Construction :=
  if ThreadID < ThreadCount then
    let p := glibcxx_stacking_thread PTHREAD_STACK_MIN c.slot (8 * 1024 * 1024)
    let err := pthread_create ThreadID
    if err != 0 then
      ThreadPool_ctor_unwind
        { c with slot := p.slot, events := c.events ++ [LifeEvent.system_error err] } err
    else
      ThreadPool_ctor_loop PTHREAD_STACK_MIN pthread_create ThreadCount (ThreadID + 1)
        { c with slot := p.slot,
                 Threads := c.Threads ++ [{ ThreadID := ThreadID, stack := p.attr }],
                 events := c.events ++ [LifeEvent.spawned ThreadID p.attr] }
  else
    c
termination_by ThreadCount - ThreadID

/-- The constructor `ThreadPool::ThreadPool(ThreadPoolStrategy S)` (threaded build):
`ThreadCount(S.compute_thread_count())`, then the spawning loop. The slot of the
constructing thread starts at 0, its initial value. -/
def ThreadPool_ctor (PTHREAD_STACK_MIN : Nat) (pthread_create : Nat → Nat)
    (compute_thread_count : Nat) : Construction :=
  ThreadPool_ctor_loop PTHREAD_STACK_MIN pthread_create compute_thread_count 0
    { Threads := [], slot := 0, error := none, terminated := false, events := [] }

/-- The stack-size attribute every worker is created with: the 8 MiB request, raised to
the platform minimum. -/
def workerStack (PTHREAD_STACK_MIN : Nat) : Option Nat :=
  some (max (8 * 1024 * 1024) PTHREAD_STACK_MIN)

/-- A `pthread_create` that always succeeds. -/
def spawnOk (_ThreadID : Nat) : Nat := 0

/-- The shared state of `std::async(std::launch::deferred, std::move(Task))`: the task
body, which acts on the caller's state `σ`, and whether it has run. A body of this type
cannot reach the pool, so it submits no task. -/
structure Deferred (σ : Type) where
  /-- the task body -/
  body : σ → σ
  /-- whether the deferred function has been run by a `get()` -/
  ready : Bool

/-- The sequential pool: the queue, the shared states of the futures handed out, and the
state the task bodies act on. A queued wrapper `[Future]() { Future.get(); }` is the index
of its future. -/
structure SeqPool (σ : Type) where
  /-- the queue `Tasks`, front first -/
  Tasks : List Nat
  /-- the shared states of the futures created by `asyncImpl`, in creation order -/
  Futures : List (Deferred σ)
  /-- the state the task bodies run on -/
  user : σ

/-- The sequential pool after construction: nothing queued, no future handed out. -/
def SeqPool.init {σ : Type} (user : σ) : SeqPool σ :=
  { Tasks := [], Futures := [], user := user }

/-- The call `Future.get()` on a deferred shared future: the first call runs the body on
the calling thread and marks the state ready; later calls find it ready and run nothing. -/
def Future_get {σ : Type} (p : SeqPool σ) (Future : Nat) : SeqPool σ :=
  match p.Futures[Future]? with
  | none => p
  | some d =>
      if d.ready then p
      else { p with user := d.body p.user,
                    Futures := p.Futures.set Future { d with ready := true } }

/-- The function `ThreadPool::asyncImpl` (sequential build): create the deferred future,
push the wrapper that calls `Future.get()`, return the future. -/
def seq_asyncImpl {σ : Type} (p : SeqPool σ) (Task : σ → σ) : SeqPool σ × Nat :=
  let Future := p.Futures.length
  ({ p with Futures := p.Futures ++ [{ body := Task, ready := false }],
            Tasks := p.Tasks ++ [Future] }, Future)

set_option linter.unusedVariables false in
/-- The function `ThreadPool::wait()` (sequential build):
`while (!Tasks.empty()) { auto Task = std::move(Tasks.front()); Tasks.pop(); Task(); }`.
Task bodies cannot push, so each iteration shortens the queue and the loop ends. -/
def seq_wait {σ : Type} (p : SeqPool σ) : SeqPool σ :=
  match h : p.Tasks with
  | [] => p
  | Task :: rest => seq_wait (Future_get { p with Tasks := rest } Task)
termination_by p.Tasks.length
decreasing_by
  have e : (Future_get { p with Tasks := rest } Task).Tasks = rest := by
    unfold Future_get
    split
    · rfl
    · split <;> rfl
  rw [e, h]
  exact Nat.lt_succ_self _

/-- Submits the bodies one after the other through `asyncImpl`, dropping the futures
(the handles are not observed). -/
def submitAll {σ : Type} (p : SeqPool σ) (bodies : List (σ → σ)) : SeqPool σ :=
  bodies.foldl (fun q Task => (seq_asyncImpl q Task).1) p

/-- A task body that records its index in the caller's log. -/
def recordIndex (i : Nat) : List Nat → List Nat :=
  fun log => log ++ [i]

/-- The state reached by `scheduleOneTask`: the queue is empty again, the counter is back
at 0, the worker is about to notify. -/
def afterOneTask : Pool :=
  { Tasks := [], ActiveThreads := 0, EnableFlag := true, Threads := [Worker.notifying true] }

/-- The events of `scheduleOneTask`. -/
def eventsOneTask : List Event :=
  [Event.pushed 7, Event.popped 0 7, Event.returned 0 7, Event.decremented 0]

/-- A schedule for a pool of two workers: two tasks are submitted, each worker starts and
pops one, and the first worker's task returns. -/
def scheduleInFlight : List Action :=
  [Action.asyncImpl 1, Action.asyncImpl 2, Action.worker 0, Action.worker 0,
   Action.worker 1, Action.worker 1, Action.worker 0]

/-- The state reached by `scheduleInFlight`: the queue is empty while both workers are
still counted, one running its task and one about to decrement. -/
def whileInFlight : Pool :=
  { Tasks := [], ActiveThreads := 2, EnableFlag := true,
    Threads := [Worker.finalising, Worker.running 2] }

/-- The events of `scheduleInFlight`. -/
def eventsInFlight : List Event :=
  [Event.pushed 1, Event.pushed 2, Event.popped 0 1, Event.popped 1 2, Event.returned 0 1]

/-- A schedule for a pool of two workers: two tasks are submitted, the destructor clears
`EnableFlag`, the workers start, pop, run and account for one task each, and then exit. -/
def scheduleDrain : List Action :=
  [Action.asyncImpl 1, Action.asyncImpl 2, Action.destroy,
   Action.worker 0, Action.worker 0, Action.worker 1, Action.worker 1,
   Action.worker 1, Action.worker 0, Action.worker 0, Action.worker 1,
   Action.worker 0, Action.worker 1, Action.worker 0, Action.worker 1]

/-- The state reached by `scheduleDrain`: both workers have returned. -/
def afterDrain : Pool :=
  { Tasks := [], ActiveThreads := 0, EnableFlag := false,
    Threads := [Worker.exited, Worker.exited] }

/-- The events of `scheduleDrain`. -/
def eventsDrain : List Event :=
  [Event.pushed 1, Event.pushed 2, Event.popped 0 1, Event.popped 1 2,
   Event.returned 1 2, Event.returned 0 1, Event.decremented 0, Event.decremented 1,
   Event.exited 0, Event.exited 1]

end ThreadPool

/-! # Theorems -/

namespace ThreadPool

/-! ## Stack-size channel: consumed exactly once -/

/-- The clamp applied by the three setters: 0 stays 0, any other request is raised to
the platform minimum. -/
theorem clamp_eq (m s : Nat) :
    (if (decide (s < m) && (s != 0)) = true then m else s) = if s = 0 then 0 else max s m := by
  by_cases h : s = 0
  · simp [h]
  · by_cases h2 : s < m
    · simp [h, h2]; omega
    · simp [h, h2]; omega

/-- C7: for each platform variant and every requested size `s`, starting from an empty
slot, `stacking_thread(s, ...)` makes the spawn prelude obtain 0 when `s = 0` (and then
apply no stack-size attribute) and `max s minimum` otherwise, and leaves the slot at 0;
a second prelude with no new write obtains 0 and applies no attribute. -/
theorem C7_stack_size_consumed_once (PTHREAD_STACK_MIN s : Nat) :
    ((libcpp_stacking_thread PTHREAD_STACK_MIN 0 s).obtained
        = (if s = 0 then 0 else max s PTHREAD_STACK_MIN)
      ∧ ((libcpp_stacking_thread PTHREAD_STACK_MIN 0 s).attr = none ↔ s = 0)
      ∧ (libcpp_stacking_thread PTHREAD_STACK_MIN 0 s).slot = 0
      ∧ __libcpp_thread_create_ex_prelude PTHREAD_STACK_MIN
          (libcpp_stacking_thread PTHREAD_STACK_MIN 0 s).slot
          = { obtained := 0, attr := none, slot := 0 })
    ∧ ((glibcxx_stacking_thread PTHREAD_STACK_MIN 0 s).obtained
        = (if s = 0 then 0 else max s PTHREAD_STACK_MIN)
      ∧ ((glibcxx_stacking_thread PTHREAD_STACK_MIN 0 s).attr = none ↔ s = 0)
      ∧ (glibcxx_stacking_thread PTHREAD_STACK_MIN 0 s).slot = 0
      ∧ _M_start_thread_ex_prelude PTHREAD_STACK_MIN
          (glibcxx_stacking_thread PTHREAD_STACK_MIN 0 s).slot
          = { obtained := 0, attr := none, slot := 0 })
    ∧ ((msvc_stacking_thread 0 s).obtained = (if s = 0 then 0 else max s 65536)
      ∧ ((msvc_stacking_thread 0 s).attr = none ↔ s = 0)
      ∧ (msvc_stacking_thread 0 s).slot = 0
      ∧ _beginthreadex_prelude (msvc_stacking_thread 0 s).slot
          = { obtained := 0, attr := none, slot := 0 }) := by
  have hc := clamp_eq PTHREAD_STACK_MIN s
  have hm := clamp_eq 65536 s
  simp only [libcpp_stacking_thread, glibcxx_stacking_thread, msvc_stacking_thread,
    __libcpp_thread_create_ex_prelude, _M_start_thread_ex_prelude, _beginthreadex_prelude,
    __libcpp_thread_setstacksize, _M_thread_setstacksize, _thread_setstacksize]
  by_cases h : s = 0
  · subst h; simp
  · simp only [h, if_false] at hc hm ⊢
    rw [hc, hm]
    have h1 : max s PTHREAD_STACK_MIN ≠ 0 := by omega
    have h2 : max s 65536 ≠ 0 := by omega
    simp [h1, h2, h]

/-! ## Threaded pool: invariants of the step function -/

/-- Replacing the worker at an index splits the list around that index. -/
theorem set_split {l : List Worker} {i : Nat} {w : Worker} (h : l[i]? = some w) :
    ∃ l1 l2, l = l1 ++ w :: l2 ∧ ∀ w', l.set i w' = l1 ++ w' :: l2 := by
  induction l generalizing i with
  | nil => simp at h
  | cons x xs ih =>
    cases i with
    | zero =>
      simp at h
      subst h
      exact ⟨[], xs, rfl, fun _ => rfl⟩
    | succ j =>
      simp at h
      obtain ⟨l1, l2, h1, h2⟩ := ih h
      refine ⟨x :: l1, l2, by simp [h1], fun w' => ?_⟩
      simp [List.set, h2 w']

theorem pushedTasks_append (a b : List Event) :
    pushedTasks (a ++ b) = pushedTasks a ++ pushedTasks b := by
  simp [pushedTasks]

theorem poppedTasks_append (a b : List Event) :
    poppedTasks (a ++ b) = poppedTasks a ++ poppedTasks b := by
  simp [poppedTasks]

theorem returnedTasks_append (a b : List Event) :
    returnedTasks (a ++ b) = returnedTasks a ++ returnedTasks b := by
  simp [returnedTasks]

theorem histInv_init (N : Nat) : HistInv N [] (ThreadPool_init N) := by
  refine ⟨by simp [ThreadPool_init], by simp [ThreadPool_init, pushedTasks, poppedTasks], ?_, ?_⟩
  · have : heldTasks (List.replicate N Worker.starting) = [] := by
      induction N with
      | zero => rfl
      | succ n ih => simp [List.replicate_succ, heldTasks, Worker.heldTask]
    simp [ThreadPool_init, poppedTasks, returnedTasks, this]
  · intro h
    simp [ThreadPool_init, List.mem_replicate] at h

theorem histInv_worker {N : Nat} {tr : List Event} {s s' : Pool} {ev : List Event} {i : Nat}
    (h : HistInv N tr s) (hs : workerStep s i = some (s', ev)) : HistInv N (tr ++ ev) s' := by
  obtain ⟨hlen, hfifo, hheld, hgone⟩ := h
  unfold workerStep at hs
  split at hs
  · simp at hs
  · next hw =>
    obtain ⟨l1, l2, e1, e2⟩ := set_split hw
    simp only [Option.some.injEq, Prod.mk.injEq] at hs
    obtain ⟨rfl, rfl⟩ := hs
    refine ⟨by simp [hlen], by simpa using hfifo, ?_, ?_⟩
    · simp only [List.append_nil, e2]
      rw [e1] at hheld
      simpa [heldTasks, Worker.heldTask] using hheld
    · simp only [e2]
      intro hm
      apply hgone
      rw [e1]
      simp at hm ⊢
      tauto
  · next hw =>
    obtain ⟨l1, l2, e1, e2⟩ := set_split hw
    split at hs
    · simp only [Option.some.injEq, Prod.mk.injEq] at hs
      obtain ⟨rfl, rfl⟩ := hs
      exact ⟨hlen, by simpa using hfifo, by simpa using hheld, hgone⟩
    · split at hs
      · next hc hx =>
        simp only [Option.some.injEq, Prod.mk.injEq] at hs
        obtain ⟨rfl, rfl⟩ := hs
        simp at hx
        refine ⟨by simp [hlen], by simpa [pushedTasks, poppedTasks, Event.pushedTask,
          Event.poppedTask] using hfifo, ?_, ?_⟩
        · simp only [e2]
          rw [e1] at hheld
          simpa [heldTasks, Worker.heldTask, poppedTasks, returnedTasks, Event.poppedTask,
            Event.returnedTask] using hheld
        · intro _
          exact ⟨hx.1, by simpa using hx.2⟩
      · next hc hx =>
        split at hs
        · simp at hs
        · next Task rest hq =>
          simp only [Option.some.injEq, Prod.mk.injEq] at hs
          obtain ⟨rfl, rfl⟩ := hs
          refine ⟨by simp [hlen], ?_, ?_, ?_⟩
          · simp only [poppedTasks_append, pushedTasks_append, hfifo, hq]
            simp [pushedTasks, poppedTasks, Event.pushedTask, Event.poppedTask]
          · simp only [e2, poppedTasks_append, returnedTasks_append]
            rw [e1] at hheld
            simp only [heldTasks, List.filterMap_append, List.filterMap_cons,
              Worker.heldTask] at hheld ⊢
            simp only [poppedTasks, returnedTasks, List.filterMap_cons, List.filterMap_nil,
              Event.poppedTask, Event.returnedTask, List.append_nil]
            have h1 := hheld.append_right [Task]
            refine h1.trans ?_
            rw [List.append_assoc, List.append_assoc]
            refine List.Perm.append_left _ ?_
            refine List.Perm.append_left _ ?_
            exact (List.perm_append_comm).trans (by simp)
          · simp only [e2]
            intro hm
            have : Worker.exited ∈ s.Threads := by
              rw [e1]
              simp at hm ⊢
              tauto
            have := (hgone this).2
            simp [hq] at this
  · next Task hw =>
    obtain ⟨l1, l2, e1, e2⟩ := set_split hw
    simp only [Option.some.injEq, Prod.mk.injEq] at hs
    obtain ⟨rfl, rfl⟩ := hs
    refine ⟨by simp [hlen], by simpa [pushedTasks, poppedTasks, Event.pushedTask,
      Event.poppedTask] using hfifo, ?_, ?_⟩
    · simp only [e2, poppedTasks_append, returnedTasks_append]
      rw [e1] at hheld
      simp only [heldTasks, List.filterMap_append, List.filterMap_cons,
        Worker.heldTask] at hheld ⊢
      simp only [poppedTasks, returnedTasks, List.filterMap_cons, List.filterMap_nil,
        Event.poppedTask, Event.returnedTask, List.append_nil] at hheld ⊢
      refine hheld.trans ?_
      rw [List.append_assoc]
      refine List.Perm.append_left _ ?_
      simp only [List.singleton_append]
      exact (List.perm_middle).trans (by simp)
    · simp only [e2]
      intro hm
      apply hgone
      rw [e1]
      simp at hm ⊢
      tauto
  · next hw =>
    obtain ⟨l1, l2, e1, e2⟩ := set_split hw
    simp only [Option.some.injEq, Prod.mk.injEq] at hs
    obtain ⟨rfl, rfl⟩ := hs
    refine ⟨by simp [hlen], by simpa [pushedTasks, poppedTasks, Event.pushedTask,
      Event.poppedTask] using hfifo, ?_, ?_⟩
    · simp only [e2]
      rw [e1] at hheld
      simpa [heldTasks, Worker.heldTask, poppedTasks, returnedTasks, Event.poppedTask,
        Event.returnedTask] using hheld
    · simp only [e2]
      intro hm
      apply hgone
      rw [e1]
      simp at hm ⊢
      tauto
  · next b hw =>
    obtain ⟨l1, l2, e1, e2⟩ := set_split hw
    simp only [Option.some.injEq, Prod.mk.injEq] at hs
    obtain ⟨rfl, rfl⟩ := hs
    refine ⟨by simp [hlen], by simpa using hfifo, ?_, ?_⟩
    · simp only [List.append_nil, e2]
      rw [e1] at hheld
      simpa [heldTasks, Worker.heldTask] using hheld
    · simp only [e2]
      intro hm
      apply hgone
      rw [e1]
      simp at hm ⊢
      tauto
  · simp at hs

theorem histInv_step {N : Nat} {tr : List Event} {s s' : Pool} {ev : List Event} {a : Action}
    (h : HistInv N tr s) (hs : step s a = some (s', ev)) : HistInv N (tr ++ ev) s' := by
  cases a with
  | asyncImpl Task =>
    obtain ⟨hlen, hfifo, hheld, hgone⟩ := h
    simp only [step, asyncImpl] at hs
    split at hs
    · next s1 he =>
      split at he
      · next hE =>
        simp only [Except.ok.injEq] at he
        simp only [Option.some.injEq, Prod.mk.injEq] at hs
        obtain ⟨rfl, rfl⟩ := hs
        subst he
        refine ⟨hlen, ?_, ?_, ?_⟩
        · rw [pushedTasks_append, poppedTasks_append, hfifo]
          simp [pushedTasks, poppedTasks, Event.pushedTask, Event.poppedTask]
        · simpa [poppedTasks, returnedTasks, Event.poppedTask, Event.returnedTask] using hheld
        · intro hm
          have := (hgone hm).1
          simp [hE] at this
      · simp at he
    · simp at hs
  | worker i => exact histInv_worker h hs
  | wait =>
    simp only [step, wait, Option.some.injEq] at hs
    split at hs
    · simp only [Prod.mk.injEq] at hs
      obtain ⟨rfl, rfl⟩ := hs
      exact ⟨h.len, by simpa [pushedTasks, poppedTasks, Event.pushedTask, Event.poppedTask]
        using h.fifo, by simpa [poppedTasks, returnedTasks, Event.poppedTask,
        Event.returnedTask] using h.held, h.gone⟩
    · simp only [Prod.mk.injEq] at hs
      obtain ⟨rfl, rfl⟩ := hs
      simpa using h
  | destroy =>
    simp only [step, destroy, Option.some.injEq, Prod.mk.injEq] at hs
    obtain ⟨rfl, rfl⟩ := hs
    exact ⟨h.len, by simpa using h.fifo, by simpa using h.held, fun hm => ⟨rfl, (h.gone hm).2⟩⟩

theorem reach_histInv {N : Nat} {tr : List Event} {s : Pool} (h : Reach N tr s) :
    HistInv N tr s := by
  induction h with
  | init => exact histInv_init N
  | step a _ hs ih => exact histInv_step ih hs

theorem inFlightCount_le (l : List Worker) : inFlightCount l ≤ l.length := by
  unfold inFlightCount
  exact List.countP_le_length _

/-- The counter invariant is kept by every step, as long as the number of workers fits
the counter. -/
theorem active_step {N : Nat} {s s' : Pool} {ev : List Event} {a : Action}
    (hN : N < UNSIGNED_MODULUS) (hlen : s.Threads.length = N)
    (h : s.ActiveThreads = inFlightCount s.Threads) (hs : step s a = some (s', ev)) :
    s'.ActiveThreads = inFlightCount s'.Threads := by
  cases a with
  | asyncImpl Task =>
    simp only [step, asyncImpl] at hs
    split at hs
    · next s1 he =>
      split at he
      · simp only [Except.ok.injEq] at he
        simp only [Option.some.injEq, Prod.mk.injEq] at hs
        obtain ⟨rfl, rfl⟩ := hs
        subst he
        exact h
      · simp at he
    · simp at hs
  | worker i =>
    simp only [step] at hs
    unfold workerStep at hs
    have hle := inFlightCount_le s.Threads
    split at hs
    · simp at hs
    · next hw =>
      obtain ⟨l1, l2, e1, e2⟩ := set_split hw
      simp only [Option.some.injEq, Prod.mk.injEq] at hs
      obtain ⟨rfl, rfl⟩ := hs
      simp only [e2]
      rw [h, e1]
      simp [inFlightCount, List.countP_cons, Worker.inFlight]
    · next hw =>
      obtain ⟨l1, l2, e1, e2⟩ := set_split hw
      split at hs
      · simp only [Option.some.injEq, Prod.mk.injEq] at hs
        obtain ⟨rfl, rfl⟩ := hs
        exact h
      · split at hs
        · simp only [Option.some.injEq, Prod.mk.injEq] at hs
          obtain ⟨rfl, rfl⟩ := hs
          simp only [e2]
          rw [h, e1]
          simp [inFlightCount, List.countP_cons, Worker.inFlight]
        · split at hs
          · simp at hs
          · simp only [Option.some.injEq, Prod.mk.injEq] at hs
            obtain ⟨rfl, rfl⟩ := hs
            simp only [e2]
            have hl : l1.length + (l2.length + 1) = N := by
              rw [← hlen, e1]; simp
            rw [e1] at hle
            rw [h, e1]
            simp only [inFlightCount, List.countP_append, List.countP_cons, Worker.inFlight,
              List.length_append, List.length_cons] at hle ⊢
            have b1 := List.countP_le_length Worker.inFlight (l := l1)
            have b2 := List.countP_le_length Worker.inFlight (l := l2)
            simp only [Bool.false_eq_true, if_false, if_true, Nat.add_zero] at hle ⊢
            rw [Nat.mod_eq_of_lt (by omega)]
            omega
    · next Task hw =>
      obtain ⟨l1, l2, e1, e2⟩ := set_split hw
      simp only [Option.some.injEq, Prod.mk.injEq] at hs
      obtain ⟨rfl, rfl⟩ := hs
      simp only [e2]
      rw [h, e1]
      simp [inFlightCount, List.countP_cons, Worker.inFlight]
    · next hw =>
      obtain ⟨l1, l2, e1, e2⟩ := set_split hw
      simp only [Option.some.injEq, Prod.mk.injEq] at hs
      obtain ⟨rfl, rfl⟩ := hs
      simp only [e2]
      have hl : l1.length + (l2.length + 1) = N := by
        rw [← hlen, e1]; simp
      rw [h, e1]
      simp only [inFlightCount, List.countP_append, List.countP_cons, Worker.inFlight]
      have b1 := List.countP_le_length Worker.inFlight (l := l1)
      have b2 := List.countP_le_length Worker.inFlight (l := l2)
      simp only [Bool.false_eq_true, if_false, if_true, Nat.add_zero]
      have e : List.countP Worker.inFlight l1 + (List.countP Worker.inFlight l2 + 1)
          + UNSIGNED_MODULUS - 1
          = (List.countP Worker.inFlight l1 + List.countP Worker.inFlight l2)
            + UNSIGNED_MODULUS := by omega
      rw [e, Nat.add_mod_right, Nat.mod_eq_of_lt (by omega)]
    · next b hw =>
      obtain ⟨l1, l2, e1, e2⟩ := set_split hw
      simp only [Option.some.injEq, Prod.mk.injEq] at hs
      obtain ⟨rfl, rfl⟩ := hs
      simp only [e2]
      rw [h, e1]
      simp [inFlightCount, List.countP_cons, Worker.inFlight]
    · simp at hs
  | wait =>
    simp only [step, wait, Option.some.injEq] at hs
    split at hs
    · simp only [Prod.mk.injEq] at hs
      obtain ⟨rfl, rfl⟩ := hs
      exact h
    · simp only [Prod.mk.injEq] at hs
      obtain ⟨rfl, rfl⟩ := hs
      exact h
  | destroy =>
    simp only [step, destroy, Option.some.injEq, Prod.mk.injEq] at hs
    obtain ⟨rfl, rfl⟩ := hs
    exact h

theorem reach_active {N : Nat} {tr : List Event} {s : Pool} (hN : N < UNSIGNED_MODULUS)
    (h : Reach N tr s) : s.ActiveThreads = inFlightCount s.Threads := by
  induction h with
  | init =>
    simp only [ThreadPool_init, inFlightCount]
    symm
    rw [List.countP_eq_zero]
    intro w hw
    rw [List.eq_of_mem_replicate hw]
    simp [Worker.inFlight]
  | step a hr hs ih => exact active_step hN (reach_histInv hr).len ih hs

/-- A schedule that runs gives a reachable state. -/
theorem reach_of_run (N : Nat) (acts : List Action) :
    ∀ (tr : List Event) (s : Pool), Reach N tr s →
      ∀ (s' : Pool) (tr' : List Event), run s tr acts = some (s', tr') → Reach N tr' s' := by
  induction acts with
  | nil =>
    intro tr s h s' tr' hr
    simp only [run, Option.some.injEq, Prod.mk.injEq] at hr
    obtain ⟨rfl, rfl⟩ := hr
    exact h
  | cons a as ih =>
    intro tr s h s' tr' hr
    simp only [run] at hr
    split at hr
    · simp at hr
    · next s1 ev hstep => exact ih _ _ (Reach.step a h hstep) _ _ hr

/-- The seven ways a worker section can run, read off `workerStep`. -/
theorem workerStep_cases {s s' : Pool} {ev : List Event} {i : Nat}
    (hs : workerStep s i = some (s', ev)) :
    (s.Threads[i]? = some Worker.starting
        ∧ s' = { s with Threads := s.Threads.set i Worker.idle } ∧ ev = [])
    ∨ (s.Threads[i]? = some Worker.idle ∧ s.EnableFlag = true ∧ s.Tasks = []
        ∧ s' = s ∧ ev = [])
    ∨ (s.Threads[i]? = some Worker.idle ∧ s.EnableFlag = false ∧ s.Tasks = []
        ∧ s' = { s with Threads := s.Threads.set i Worker.exited } ∧ ev = [Event.exited i])
    ∨ (∃ Task rest, s.Threads[i]? = some Worker.idle ∧ s.Tasks = Task :: rest
        ∧ s' = { s with ActiveThreads := (s.ActiveThreads + 1) % UNSIGNED_MODULUS,
                        Tasks := rest,
                        Threads := s.Threads.set i (Worker.running Task) }
        ∧ ev = [Event.popped i Task])
    ∨ (∃ Task, s.Threads[i]? = some (Worker.running Task)
        ∧ s' = { s with Threads := s.Threads.set i Worker.finalising }
        ∧ ev = [Event.returned i Task])
    ∨ (∃ b, s.Threads[i]? = some Worker.finalising
        ∧ s' = { s with
                 ActiveThreads :=
                   (s.ActiveThreads + UNSIGNED_MODULUS - 1) % UNSIGNED_MODULUS,
                 Threads := s.Threads.set i (Worker.notifying b) }
        ∧ ev = [Event.decremented i])
    ∨ (∃ b, s.Threads[i]? = some (Worker.notifying b)
        ∧ s' = { s with Threads := s.Threads.set i Worker.idle } ∧ ev = []) := by
  unfold workerStep at hs
  split at hs
  · simp at hs
  · next hw =>
    simp only [Option.some.injEq, Prod.mk.injEq] at hs
    exact Or.inl ⟨hw, hs.1.symm, hs.2.symm⟩
  · next hw =>
    split at hs
    · next hc =>
      simp only [Option.some.injEq, Prod.mk.injEq] at hs
      simp at hc
      exact Or.inr (Or.inl ⟨hw, hc.1, hc.2, hs.1.symm, hs.2.symm⟩)
    · split at hs
      · next hc hx =>
        simp only [Option.some.injEq, Prod.mk.injEq] at hs
        simp at hx
        exact Or.inr (Or.inr (Or.inl ⟨hw, hx.1, hx.2, hs.1.symm, hs.2.symm⟩))
      · split at hs
        · simp at hs
        · next Task rest hq =>
          simp only [Option.some.injEq, Prod.mk.injEq] at hs
          exact Or.inr (Or.inr (Or.inr (Or.inl ⟨Task, rest, hw, hq, hs.1.symm, hs.2.symm⟩)))
  · next Task hw =>
    simp only [Option.some.injEq, Prod.mk.injEq] at hs
    exact Or.inr (Or.inr (Or.inr (Or.inr (Or.inl ⟨Task, hw, hs.1.symm, hs.2.symm⟩))))
  · next hw =>
    simp only [Option.some.injEq, Prod.mk.injEq] at hs
    exact Or.inr (Or.inr (Or.inr (Or.inr (Or.inr (Or.inl ⟨_, hw, hs.1.symm, hs.2.symm⟩)))))
  · next b hw =>
    simp only [Option.some.injEq, Prod.mk.injEq] at hs
    exact Or.inr (Or.inr (Or.inr (Or.inr (Or.inr (Or.inr ⟨b, hw, hs.1.symm, hs.2.symm⟩)))))
  · simp at hs

/-- A worker section is defined for every worker that has not returned: the only
actions without a step are those of a missing or exited worker. -/
theorem workerStep_eq_none_iff (s : Pool) (i : Nat) :
    workerStep s i = none ↔ s.Threads[i]? = none ∨ s.Threads[i]? = some Worker.exited := by
  unfold workerStep
  cases hE : s.EnableFlag <;> cases hT : s.Tasks <;> cases hw : s.Threads[i]? with
  | none => simp
  | some w => cases w <;> simp

/-- A worker in flight is counted. -/
theorem inFlightCount_pos {l : List Worker} {i : Nat} {w : Worker} (h : l[i]? = some w)
    (hw : w.inFlight = true) : 0 < inFlightCount l := by
  obtain ⟨l1, l2, e1, _⟩ := set_split h
  rw [e1]
  simp [inFlightCount, List.countP_cons, hw]

/-- A worker that holds a task is in flight. -/
theorem running_inFlight (Task : PackagedTaskTy) : (Worker.running Task).inFlight = true := rfl

/-- No worker in flight means that no worker holds a task. -/
theorem heldTasks_nil_of_count {l : List Worker} (h : inFlightCount l = 0) :
    heldTasks l = [] := by
  unfold inFlightCount at h
  rw [List.countP_eq_zero] at h
  unfold heldTasks
  rw [List.filterMap_eq_nil_iff]
  intro w hw
  have := h w hw
  cases w <;> simp_all [Worker.heldTask, Worker.inFlight]

/-- The state of a pool whose `wait()` predicate is true. -/
theorem workCompleted_iff (s : Pool) :
    workCompletedUnlocked s = true ↔ s.Tasks = [] ∧ s.ActiveThreads = 0 := by
  simp [workCompletedUnlocked, List.isEmpty_iff]

/-- C1: for a worker count that fits the `unsigned` counter, in every reachable state
where the predicate `wait()` waits for is true, the queue is empty and no worker holds a
popped task whose body has not returned; `wait()` returns in a state only if the
predicate is true there. -/
theorem C1_wait_excludes_in_flight (N : Nat) (tr : List Event) (s : Pool)
    (hN : N < UNSIGNED_MODULUS) (hr : Reach N tr s) (hw : workCompletedUnlocked s = true) :
    s.Tasks = []
    ∧ (∀ (i : Nat) (Task : PackagedTaskTy), s.Threads[i]? ≠ some (Worker.running Task))
    ∧ heldTasks s.Threads = []
    ∧ (∀ s0 : Pool, Event.waitReturned ∈ (wait s0).2 → workCompletedUnlocked s0 = true) := by
  have ha := reach_active hN hr
  obtain ⟨hq, h0⟩ := (workCompleted_iff s).1 hw
  rw [h0] at ha
  refine ⟨hq, ?_, heldTasks_nil_of_count ha.symm, ?_⟩
  · intro i Task hi
    have := inFlightCount_pos hi (running_inFlight Task)
    omega
  · intro s0 h
    unfold wait at h
    split at h
    · assumption
    · simp at h

theorem run_scheduleOneTask :
    run (ThreadPool_init 1) [] scheduleOneTask = some (afterOneTask, eventsOneTask) := by
  decide

/-- C1 at a concrete state: after one task went through a pool of one worker, the
predicate of `wait()` holds and no worker holds a task. -/
theorem C1_wait_excludes_in_flight_witness :
    (1 < UNSIGNED_MODULUS ∧ Reach 1 eventsOneTask afterOneTask
      ∧ workCompletedUnlocked afterOneTask = true)
    ∧ afterOneTask.Tasks = [] ∧ heldTasks afterOneTask.Threads = [] :=
  have hr := reach_of_run 1 scheduleOneTask [] _ Reach.init _ _ run_scheduleOneTask
  have h := C1_wait_excludes_in_flight 1 eventsOneTask afterOneTask (by decide) hr (by decide)
  ⟨⟨by decide, hr, by decide⟩, h.1, h.2.2.1⟩

/-- C3: in every reachable state the tasks pushed by `asyncImpl`, in push order, are the
tasks popped by workers, in pop order, followed by the queue front to back. So the
popped tasks are a beginning of the pushed ones, the k-th pop hands out the k-th pushed
task, and pushes are pops plus queued tasks in number: nothing is handed out twice and
nothing leaves the queue without being handed to a worker. -/
theorem C3_fifo_handoff (N : Nat) (tr : List Event) (s : Pool) (hr : Reach N tr s) :
    pushedTasks tr = poppedTasks tr ++ s.Tasks
    ∧ poppedTasks tr <+: pushedTasks tr
    ∧ (∀ k : Nat, k < (poppedTasks tr).length → (poppedTasks tr)[k]? = (pushedTasks tr)[k]?)
    ∧ (pushedTasks tr).length = (poppedTasks tr).length + s.Tasks.length := by
  have h := (reach_histInv hr).fifo
  refine ⟨h, ⟨s.Tasks, h.symm⟩, ?_, by rw [h, List.length_append]⟩
  intro k hk
  rw [h, List.getElem?_append_left hk]

theorem run_scheduleInFlight :
    run (ThreadPool_init 2) [] scheduleInFlight = some (whileInFlight, eventsInFlight) := by
  decide

theorem run_scheduleDrain :
    run (ThreadPool_init 2) [] scheduleDrain = some (afterDrain, eventsDrain) := by
  decide

/-- The moment the counter exists for: the queue is empty while popped tasks are still
in flight, and the predicate of `wait()` is false. -/
theorem queue_empty_while_in_flight :
    Reach 2 eventsInFlight whileInFlight ∧ whileInFlight.Tasks = []
      ∧ workCompletedUnlocked whileInFlight = false
      ∧ wait whileInFlight = (whileInFlight, []) :=
  ⟨reach_of_run 2 scheduleInFlight [] _ Reach.init _ _ run_scheduleInFlight,
    by decide, by decide, by decide⟩

/-- C3 at a concrete state: two tasks pushed, both popped in push order, queue empty. -/
theorem C3_fifo_handoff_witness :
    Reach 2 eventsInFlight whileInFlight
    ∧ pushedTasks eventsInFlight = poppedTasks eventsInFlight ++ whileInFlight.Tasks
    ∧ pushedTasks eventsInFlight = [1, 2] ∧ poppedTasks eventsInFlight = [1, 2] :=
  have hr := reach_of_run 2 scheduleInFlight [] _ Reach.init _ _ run_scheduleInFlight
  ⟨hr, (C3_fifo_handoff 2 eventsInFlight whileInFlight hr).1, by decide, by decide⟩

/-- C2: for a worker count that fits the `unsigned` counter, in every reachable state
(each is observed with `QueueLock` free, locked sections being single steps)
`ActiveThreads` is the number of workers that have popped a task and not yet executed the `--ActiveThreads` after it; it is at most the
number of workers; a step that executes `--ActiveThreads` starts from a positive counter
and lowers it by exactly one (no wrap), and a step that pops raises it by exactly one. -/
theorem C2_active_counts_in_flight (N : Nat) (tr : List Event) (s : Pool)
    (hN : N < UNSIGNED_MODULUS) (hr : Reach N tr s) :
    s.ActiveThreads = inFlightCount s.Threads
    ∧ s.ActiveThreads ≤ N
    ∧ (∀ (i : Nat) (s' : Pool) (ev : List Event), step s (Action.worker i) = some (s', ev) →
        Event.decremented i ∈ ev → 0 < s.ActiveThreads ∧ s'.ActiveThreads + 1 = s.ActiveThreads)
    ∧ (∀ (i : Nat) (Task : PackagedTaskTy) (s' : Pool) (ev : List Event),
        step s (Action.worker i) = some (s', ev) →
        Event.popped i Task ∈ ev → s'.ActiveThreads = s.ActiveThreads + 1) := by
  have ha := reach_active hN hr
  have hlen := (reach_histInv hr).len
  have hle : s.ActiveThreads ≤ N := by
    rw [ha, ← hlen]; exact inFlightCount_le _
  refine ⟨ha, hle, ?_, ?_⟩
  · intro i s' ev hs hd
    simp only [step] at hs
    rcases workerStep_cases hs with ⟨_, _, rfl⟩ | ⟨_, _, _, _, rfl⟩ | ⟨_, _, _, _, rfl⟩
      | ⟨_, _, _, _, _, rfl⟩ | ⟨_, _, _, rfl⟩ | ⟨b, hw, rfl, rfl⟩ | ⟨_, _, _, rfl⟩
    all_goals try simp at hd
    have hp : 0 < s.ActiveThreads := by
      rw [ha]; exact inFlightCount_pos hw rfl
    refine ⟨hp, ?_⟩
    show (s.ActiveThreads + UNSIGNED_MODULUS - 1) % UNSIGNED_MODULUS + 1 = s.ActiveThreads
    have e : s.ActiveThreads + UNSIGNED_MODULUS - 1
        = (s.ActiveThreads - 1) + UNSIGNED_MODULUS := by omega
    rw [e, Nat.add_mod_right, Nat.mod_eq_of_lt (by omega)]
    omega
  · intro i Task s' ev hs hd
    have hr' := Reach.step (Action.worker i) hr hs
    have ha' := reach_active hN hr'
    have hlen' := (reach_histInv hr').len
    simp only [step] at hs
    rcases workerStep_cases hs with ⟨_, _, rfl⟩ | ⟨_, _, _, _, rfl⟩ | ⟨_, _, _, _, rfl⟩
      | ⟨t, rest, hw, hq, rfl, rfl⟩ | ⟨_, _, _, rfl⟩ | ⟨_, _, _, rfl⟩ | ⟨_, _, _, rfl⟩
    all_goals try simp at hd
    show (s.ActiveThreads + 1) % UNSIGNED_MODULUS = s.ActiveThreads + 1
    obtain ⟨l1, l2, e1, e2⟩ := set_split hw
    have hc : inFlightCount (s.Threads.set i (Worker.running t)) = inFlightCount s.Threads + 1 := by
      rw [e2, e1]
      simp [inFlightCount, List.countP_cons, Worker.inFlight]
      omega
    have hb := inFlightCount_le (s.Threads.set i (Worker.running t))
    rw [hc, List.length_set, hlen, ← ha] at hb
    exact Nat.mod_eq_of_lt (by omega)

/-- C2 at a concrete state: with both workers of a two-worker pool in flight, the counter
is 2, and the decrement by worker 0 starts from a positive counter. -/
theorem C2_active_counts_in_flight_witness :
    (2 < UNSIGNED_MODULUS ∧ Reach 2 eventsInFlight whileInFlight)
    ∧ whileInFlight.ActiveThreads = inFlightCount whileInFlight.Threads
    ∧ inFlightCount whileInFlight.Threads = 2
    ∧ whileInFlight.ActiveThreads ≤ 2 :=
  have hr := reach_of_run 2 scheduleInFlight [] _ Reach.init _ _ run_scheduleInFlight
  have h := C2_active_counts_in_flight 2 eventsInFlight whileInFlight (by decide) hr
  ⟨⟨by decide, hr⟩, h.1, by decide, h.2.1⟩

/-- C4: for a pool with at least one worker (and a worker count that fits the `unsigned`
counter), a worker step that takes the `return` of the
loop starts (and ends) in a state with `EnableFlag` false and `Tasks` empty; and in every
reachable state in which all workers have exited, the queue is empty, `ActiveThreads` is
0, every pushed task has been popped, and the bodies that have returned are exactly the
pushed tasks. -/
theorem C4_drain_on_shutdown (N : Nat) (tr : List Event) (s : Pool)
    (hN : N < UNSIGNED_MODULUS) (hpos : 0 < N) (hr : Reach N tr s)
    (hx : ∀ w ∈ s.Threads, w = Worker.exited) :
    (∀ (s0 s1 : Pool) (i : Nat) (ev : List Event),
        step s0 (Action.worker i) = some (s1, ev) → s1.Threads[i]? = some Worker.exited →
        s0.EnableFlag = false ∧ s0.Tasks = [] ∧ s1.EnableFlag = false ∧ s1.Tasks = []
          ∧ Event.exited i ∈ ev)
    ∧ s.Tasks = [] ∧ s.ActiveThreads = 0 ∧ s.EnableFlag = false
    ∧ poppedTasks tr = pushedTasks tr
    ∧ (returnedTasks tr).Perm (pushedTasks tr) := by
  have hi := reach_histInv hr
  have ha := reach_active hN hr
  have hmem : Worker.exited ∈ s.Threads := by
    have hl := hi.len
    cases hT : s.Threads with
    | nil => rw [hT] at hl; simp at hl; omega
    | cons w ws =>
      have := hx w (by rw [hT]; simp)
      rw [this]; simp
  obtain ⟨hE, hQ⟩ := hi.gone hmem
  have hc : inFlightCount s.Threads = 0 := by
    unfold inFlightCount
    rw [List.countP_eq_zero]
    intro w hw
    rw [hx w hw]
    simp [Worker.inFlight]
  have hpp : poppedTasks tr = pushedTasks tr := by
    rw [hi.fifo, hQ, List.append_nil]
  refine ⟨?_, hQ, by rw [ha, hc], hE, hpp, ?_⟩
  · intro s0 s1 i ev hs he
    simp only [step] at hs
    have hlt : i < s0.Threads.length := by
      rcases workerStep_cases hs with ⟨hw, _⟩ | ⟨hw, _⟩ | ⟨hw, _⟩
        | ⟨_, _, hw, _⟩ | ⟨_, hw, _⟩ | ⟨_, hw, _⟩ | ⟨_, hw, _⟩ <;>
      exact (List.getElem?_eq_some_iff.1 hw).1
    rcases workerStep_cases hs with ⟨_, rfl, rfl⟩ | ⟨hw, _, _, rfl, rfl⟩ | ⟨_, h1, h2, rfl, rfl⟩
      | ⟨_, _, _, _, rfl, rfl⟩ | ⟨_, _, rfl, rfl⟩ | ⟨_, _, rfl, rfl⟩ | ⟨_, _, rfl, rfl⟩
    · simp [List.getElem?_set, hlt] at he
    · rw [hw] at he; simp at he
    · exact ⟨h1, h2, h1, h2, by simp⟩
    · simp [List.getElem?_set, hlt] at he
    · simp [List.getElem?_set, hlt] at he
    · simp [List.getElem?_set, hlt] at he
    · simp [List.getElem?_set, hlt] at he
  · have h := hi.held
    rw [heldTasks_nil_of_count hc, List.append_nil, hpp] at h
    exact h.symm

/-- C4 at a concrete state: two tasks submitted to a pool of two workers before the
destructor clears `EnableFlag`; once both workers have exited, both tasks have been
popped and have returned. -/
theorem C4_drain_on_shutdown_witness :
    (2 < UNSIGNED_MODULUS ∧ 0 < 2 ∧ Reach 2 eventsDrain afterDrain
      ∧ ∀ w ∈ afterDrain.Threads, w = Worker.exited)
    ∧ afterDrain.Tasks = [] ∧ afterDrain.ActiveThreads = 0
    ∧ poppedTasks eventsDrain = pushedTasks eventsDrain
    ∧ (returnedTasks eventsDrain).Perm (pushedTasks eventsDrain)
    ∧ pushedTasks eventsDrain = [1, 2] ∧ returnedTasks eventsDrain = [2, 1] :=
  have hr := reach_of_run 2 scheduleDrain [] _ Reach.init _ _ run_scheduleDrain
  have hx : ∀ w ∈ afterDrain.Threads, w = Worker.exited := by decide
  have h := C4_drain_on_shutdown 2 eventsDrain afterDrain (by decide) (by decide) hr hx
  ⟨⟨by decide, by decide, hr, hx⟩, h.2.1, h.2.2.1, h.2.2.2.2.1, h.2.2.2.2.2,
    by decide, by decide⟩

/-- C6: `asyncImpl` on a state with `EnableFlag` true returns the state with the task
appended at the back of the queue and `ActiveThreads`, `EnableFlag` and the workers
unchanged; on a state with `EnableFlag` false the assertion fails, no state is returned,
and the step function has no step for the submission. -/
theorem C6_asyncImpl (Tasks : List PackagedTaskTy) (ActiveThreads : Nat)
    (Threads : List Worker) (Task : PackagedTaskTy) :
    asyncImpl { Tasks := Tasks, ActiveThreads := ActiveThreads, EnableFlag := true,
                Threads := Threads } Task
      = Except.ok { Tasks := Tasks ++ [Task], ActiveThreads := ActiveThreads,
                    EnableFlag := true, Threads := Threads }
    ∧ asyncImpl { Tasks := Tasks, ActiveThreads := ActiveThreads, EnableFlag := false,
                  Threads := Threads } Task
      = Except.error Fatal.assertEnableFlag
    ∧ step { Tasks := Tasks, ActiveThreads := ActiveThreads, EnableFlag := false,
             Threads := Threads } (Action.asyncImpl Task) = none := by
  simp [asyncImpl, step]

/-- A step that is not a submission keeps a reachable quiescent state quiescent. -/
theorem quiescent_step {N : Nat} {tr : List Event} {s s' : Pool} {ev : List Event}
    {a : Action} (hN : N < UNSIGNED_MODULUS) (hr : Reach N tr s)
    (hq : workCompletedUnlocked s = true) (ha : ∀ Task, a ≠ Action.asyncImpl Task)
    (hs : step s a = some (s', ev)) : workCompletedUnlocked s' = true := by
  obtain ⟨hQ, h0⟩ := (workCompleted_iff s).1 hq
  have hc := reach_active hN hr
  rw [h0] at hc
  cases a with
  | asyncImpl Task => exact absurd rfl (ha Task)
  | worker i =>
    simp only [step] at hs
    rcases workerStep_cases hs with ⟨_, rfl, _⟩ | ⟨_, _, _, rfl, _⟩ | ⟨_, _, _, rfl, _⟩
      | ⟨_, _, _, hq', _, _⟩ | ⟨_, hw, _, _⟩ | ⟨_, hw, _, _⟩ | ⟨_, _, rfl, _⟩
    · exact hq
    · exact hq
    · exact hq
    · rw [hQ] at hq'; simp at hq'
    · have := inFlightCount_pos hw rfl
      omega
    · have := inFlightCount_pos hw rfl
      omega
    · exact hq
  | wait =>
    simp only [step, wait, Option.some.injEq] at hs
    split at hs <;>
    · simp only [Prod.mk.injEq] at hs
      obtain ⟨rfl, _⟩ := hs
      exact hq
  | destroy =>
    simp only [step, destroy, Option.some.injEq, Prod.mk.injEq] at hs
    obtain ⟨rfl, _⟩ := hs
    exact hq

/-- A schedule without submissions keeps a reachable quiescent state quiescent. -/
theorem quiescent_run {N : Nat} (hN : N < UNSIGNED_MODULUS) (acts : List Action)
    (ha : ∀ Task, Action.asyncImpl Task ∉ acts) :
    ∀ (tr : List Event) (s : Pool), Reach N tr s → workCompletedUnlocked s = true →
      ∀ (s' : Pool) (tr' : List Event), run s tr acts = some (s', tr') →
        workCompletedUnlocked s' = true := by
  induction acts with
  | nil =>
    intro tr s _ hq s' tr' h
    simp only [run, Option.some.injEq, Prod.mk.injEq] at h
    obtain ⟨rfl, _⟩ := h
    exact hq
  | cons a as ih =>
    intro tr s hr hq s' tr' h
    simp only [run] at h
    split at h
    · simp at h
    · next s1 ev hstep =>
      have hne : ∀ Task, a ≠ Action.asyncImpl Task := by
        intro Task e
        exact ha Task (by rw [e]; simp)
      have hq1 := quiescent_step hN hr hq hne hstep
      exact ih (fun Task hm => ha Task (List.mem_cons_of_mem _ hm)) _ _
        (Reach.step a hr hstep) hq1 _ _ h

/-- C9: for a worker count that fits the `unsigned` counter, from a reachable state of
the threaded pool with `Tasks` empty and `ActiveThreads` 0, every step that is not a submission, and every schedule without
submissions, ends in a state with `Tasks` empty and `ActiveThreads` 0, in which `wait()`
finds its predicate true and returns at once. In the sequential fallback, `wait()` on an
empty queue returns the pool unchanged: no body is run and no future becomes ready. -/
theorem C9_idempotent_quiescence (N : Nat) (tr : List Event) (s : Pool)
    (hN : N < UNSIGNED_MODULUS) (hr : Reach N tr s) (hq : workCompletedUnlocked s = true) :
    (∀ (a : Action) (s' : Pool) (ev : List Event), (∀ Task, a ≠ Action.asyncImpl Task) →
        step s a = some (s', ev) →
        s'.Tasks = [] ∧ s'.ActiveThreads = 0 ∧ wait s' = (s', [Event.waitReturned]))
    ∧ (∀ (acts : List Action) (s' : Pool) (tr' : List Event),
        (∀ Task, Action.asyncImpl Task ∉ acts) → run s tr acts = some (s', tr') →
        s'.Tasks = [] ∧ s'.ActiveThreads = 0 ∧ wait s' = (s', [Event.waitReturned]))
    ∧ (∀ (σ : Type) (Futures : List (Deferred σ)) (user : σ),
        seq_wait { Tasks := [], Futures := Futures, user := user }
          = { Tasks := [], Futures := Futures, user := user }) := by
  refine ⟨?_, ?_, ?_⟩
  · intro a s' ev ha hs
    have h := quiescent_step hN hr hq ha hs
    obtain ⟨h1, h2⟩ := (workCompleted_iff s').1 h
    exact ⟨h1, h2, by simp [wait, h]⟩
  · intro acts s' tr' ha hs
    have h := quiescent_run hN acts ha tr s hr hq s' tr' hs
    obtain ⟨h1, h2⟩ := (workCompleted_iff s').1 h
    exact ⟨h1, h2, by simp [wait, h]⟩
  · intro σ Futures user
    rw [seq_wait]

/-- C9 at a concrete state: after one task went through a pool of one worker, the
worker's notification step, a `wait()`, and the destructor's flag write leave the pool
quiescent. -/
theorem C9_idempotent_quiescence_witness :
    (1 < UNSIGNED_MODULUS ∧ Reach 1 eventsOneTask afterOneTask
      ∧ workCompletedUnlocked afterOneTask = true)
    ∧ run afterOneTask eventsOneTask [Action.worker 0, Action.wait, Action.destroy, Action.wait]
        = some ({ afterOneTask with EnableFlag := false, Threads := [Worker.idle] },
                eventsOneTask ++ [Event.waitReturned, Event.waitReturned])
    ∧ wait { afterOneTask with EnableFlag := false, Threads := [Worker.idle] }
        = ({ afterOneTask with EnableFlag := false, Threads := [Worker.idle] },
           [Event.waitReturned]) :=
  have hr := reach_of_run 1 scheduleOneTask [] _ Reach.init _ _ run_scheduleOneTask
  have hrun : run afterOneTask eventsOneTask
      [Action.worker 0, Action.wait, Action.destroy, Action.wait]
        = some ({ afterOneTask with EnableFlag := false, Threads := [Worker.idle] },
                eventsOneTask ++ [Event.waitReturned, Event.waitReturned]) := by decide
  have h := C9_idempotent_quiescence 1 eventsOneTask afterOneTask (by decide) hr (by decide)
  ⟨⟨by decide, hr, by decide⟩, hrun,
    (h.2.1 [Action.worker 0, Action.wait, Action.destroy, Action.wait] _ _
      (by intro Task hm; simp at hm) hrun).2.2⟩

/-! ## Sequential fallback -/

theorem seq_wait_nil {σ : Type} (p : SeqPool σ) (h : p.Tasks = []) : seq_wait p = p := by
  rw [seq_wait]
  split
  · rfl
  · next Task rest h' => rw [h] at h'; cases h'

theorem seq_wait_cons {σ : Type} (p : SeqPool σ) (Task : Nat) (rest : List Nat)
    (h : p.Tasks = Task :: rest) :
    seq_wait p = seq_wait (Future_get { p with Tasks := rest } Task) := by
  rw [seq_wait]
  split
  · next h' => rw [h] at h'; cases h'
  · next Task' rest' h' =>
    rw [h] at h'
    cases h'
    rfl

/-- Submitting bodies appends one not-ready future per body and queues their indices. -/
theorem submitAll_eq {σ : Type} (bodies : List (σ → σ)) :
    ∀ p : SeqPool σ, submitAll p bodies
      = { Tasks := p.Tasks ++ List.range' p.Futures.length bodies.length,
          Futures := p.Futures ++ bodies.map (fun Task => { body := Task, ready := false }),
          user := p.user } := by
  induction bodies with
  | nil => intro p; cases p; simp [submitAll]
  | cons b bs ih =>
    intro p
    have := ih (seq_asyncImpl p b).1
    simp only [submitAll, List.foldl_cons] at this ⊢
    rw [this]
    simp [seq_asyncImpl, List.range'_succ]

/-- Draining a queue of not-yet-run futures runs the bodies front to back, once each. -/
theorem seq_wait_pending {σ : Type} (bs : List (σ → σ)) :
    ∀ (F : List (Deferred σ)) (user : σ),
      seq_wait { Tasks := List.range' F.length bs.length,
                 Futures := F ++ bs.map (fun Task => { body := Task, ready := false }),
                 user := user }
        = { Tasks := [],
            Futures := F ++ bs.map (fun Task => { body := Task, ready := true }),
            user := bs.foldl (fun u Task => Task u) user } := by
  induction bs with
  | nil => intro F user; rw [seq_wait_nil _ (by simp)]; simp
  | cons b bs ih =>
    intro F user
    rw [seq_wait_cons _ F.length (List.range' (F.length + 1) bs.length)
      (by simp [List.range'_succ])]
    have hg : (F ++ List.map (fun Task => ({ body := Task, ready := false } : Deferred σ))
        (b :: bs))[F.length]? = some { body := b, ready := false } := by
      rw [List.getElem?_append_right (Nat.le_refl _)]
      simp
    have hset : (F ++ List.map (fun Task => ({ body := Task, ready := false } : Deferred σ))
        (b :: bs)).set F.length { body := b, ready := true }
        = (F ++ [{ body := b, ready := true }])
          ++ bs.map (fun Task => { body := Task, ready := false }) := by
      simp [List.set_append_right]
    have := ih (F ++ [{ body := b, ready := true }]) (b user)
    simp only [List.length_append, List.length_singleton] at this
    simp only [Future_get, hg, Bool.false_eq_true, if_false, hset]
    rw [this]
    simp

theorem foldl_recordIndex (k : Nat) :
    ((List.range k).map recordIndex).foldl (fun u Task => Task u) [] = List.range k := by
  induction k with
  | zero => rfl
  | succ n ih =>
    rw [List.range_succ, List.map_append, List.foldl_append, ih]
    simp [recordIndex]

/-- C8: in the sequential fallback, for every list of task bodies submitted through
`asyncImpl` to a freshly constructed pool (handles not observed, bodies unable to
submit), `wait()` returns with `Tasks` empty, every future ready, and the caller's state
equal to the bodies applied in submission order, once each; tasks that record their
index leave the log 0..k-1, and 0..4 for five tasks. -/
theorem C8_sequential_wait_fifo (σ : Type) (user : σ) (bodies : List (σ → σ)) (k : Nat) :
    (seq_wait (submitAll (SeqPool.init user) bodies)).Tasks = []
    ∧ (seq_wait (submitAll (SeqPool.init user) bodies)).user
        = bodies.foldl (fun u Task => Task u) user
    ∧ (seq_wait (submitAll (SeqPool.init user) bodies)).Futures
        = bodies.map (fun Task => { body := Task, ready := true })
    ∧ (submitAll (SeqPool.init user) bodies).Tasks = List.range bodies.length
    ∧ (submitAll (SeqPool.init user) bodies).user = user
    ∧ (seq_wait (submitAll (SeqPool.init []) ((List.range k).map recordIndex))).user
        = List.range k
    ∧ (seq_wait (submitAll (SeqPool.init [])
          [recordIndex 0, recordIndex 1, recordIndex 2, recordIndex 3, recordIndex 4])).user
        = [0, 1, 2, 3, 4] := by
  have key : ∀ (τ : Type) (u : τ) (bs : List (τ → τ)),
      seq_wait (submitAll (SeqPool.init u) bs)
        = { Tasks := [], Futures := bs.map (fun Task => { body := Task, ready := true }),
            user := bs.foldl (fun u Task => Task u) u } := by
    intro τ u bs
    rw [submitAll_eq]
    have := seq_wait_pending bs [] u
    simpa [SeqPool.init] using this
  refine ⟨by rw [key], by rw [key], by rw [key], ?_, ?_, ?_, ?_⟩
  · rw [submitAll_eq]
    simp [SeqPool.init, List.range_eq_range']
  · rw [submitAll_eq]
    rfl
  · rw [key, foldl_recordIndex]
  · rw [key]
    rfl

/-! ## Construction -/

/-- From an empty slot, `stacking_thread(8*1024*1024, ...)` applies the clamped 8 MiB
attribute and leaves the slot empty. -/
theorem glibcxx_stacking_thread_8M (m : Nat) :
    glibcxx_stacking_thread m 0 (8 * 1024 * 1024)
      = { obtained := max (8 * 1024 * 1024) m, attr := workerStack m, slot := 0 } := by
  have hc := clamp_eq m (8 * 1024 * 1024)
  simp only [glibcxx_stacking_thread, _M_start_thread_ex_prelude, _M_thread_setstacksize]
  simp only [show (8 * 1024 * 1024 : Nat) ≠ 0 by decide, if_false] at hc
  rw [hc]
  have : max (8 * 1024 * 1024) m ≠ 0 := by omega
  simp [workerStack, this]

/-- The spawning loop when no `pthread_create` fails: it spawns every remaining worker. -/
theorem ctor_loop_ok (m : Nat) (pc : Nat → Nat) (N : Nat) :
    ∀ (d ThreadID : Nat) (c : Construction), ThreadID + d = N → c.slot = 0 →
      (∀ j, ThreadID ≤ j → j < N → pc j = 0) →
      ThreadPool_ctor_loop m pc N ThreadID c
        = { Threads := c.Threads ++ (List.range' ThreadID d).map
              (fun j => { ThreadID := j, stack := workerStack m }),
            slot := 0, error := c.error, terminated := c.terminated,
            events := c.events ++ (List.range' ThreadID d).map
              (fun j => LifeEvent.spawned j (workerStack m)) } := by
  intro d
  induction d with
  | zero =>
    intro ThreadID c hd hs _
    simp only [Nat.add_zero] at hd
    subst hd
    rw [ThreadPool_ctor_loop]
    cases c
    simp at hs
    simp [hs]
  | succ d ih =>
    intro ThreadID c hd hs hok
    have hlt : ThreadID < N := by omega
    have h0 : pc ThreadID = 0 := hok ThreadID (Nat.le_refl _) hlt
    rw [ThreadPool_ctor_loop]
    simp only [hlt, if_true, h0, hs, glibcxx_stacking_thread_8M]
    simp only [bne_self_eq_false, Bool.false_eq_true, if_false]
    rw [ih (ThreadID + 1) _ (by omega) rfl (fun j h1 h2 => hok j (by omega) h2)]
    simp [List.range'_succ]

/-- The constructor when every `pthread_create` succeeds. -/
theorem ctor_ok (m : Nat) (pc : Nat → Nat) (N : Nat) (hok : ∀ j, j < N → pc j = 0) :
    ThreadPool_ctor m pc N
      = { Threads := (List.range N).map (fun j => { ThreadID := j, stack := workerStack m }),
          slot := 0, error := none, terminated := false,
          events := (List.range N).map (fun j => LifeEvent.spawned j (workerStack m)) } := by
  unfold ThreadPool_ctor
  rw [ctor_loop_ok m pc N N 0 _ (by omega) rfl (fun j _ h => hok j h)]
  simp [List.range_eq_range']

/-- C5, as the code has it: when no spawn fails, construction with
`compute_thread_count() = N` ends without error having spawned exactly `N` workers, one
for each index 0..N-1 in order, each with the 8 MiB stack request; the pool then has `N`
workers. There is no clamp: for `N = 0` no worker is spawned. -/
theorem C5_ctor_spawns_ThreadCount (PTHREAD_STACK_MIN : Nat) (pthread_create : Nat → Nat)
    (N : Nat) (hok : ∀ j, j < N → pthread_create j = 0) :
    (ThreadPool_ctor PTHREAD_STACK_MIN pthread_create N).error = none
    ∧ (ThreadPool_ctor PTHREAD_STACK_MIN pthread_create N).Threads.length = N
    ∧ (ThreadPool_ctor PTHREAD_STACK_MIN pthread_create N).Threads.map Thread.ThreadID
        = List.range N
    ∧ (ThreadPool_ctor PTHREAD_STACK_MIN pthread_create N).Threads
        = (List.range N).map
            (fun j => { ThreadID := j, stack := workerStack PTHREAD_STACK_MIN })
    ∧ (ThreadPool_ctor PTHREAD_STACK_MIN pthread_create N).events
        = (List.range N).map (fun j => LifeEvent.spawned j (workerStack PTHREAD_STACK_MIN))
    ∧ (ThreadPool_init (ThreadPool_ctor PTHREAD_STACK_MIN pthread_create N).Threads.length).Threads
        = List.replicate N Worker.starting := by
  rw [ctor_ok PTHREAD_STACK_MIN pthread_create N hok]
  refine ⟨rfl, by simp, ?_, rfl, rfl, by simp [ThreadPool_init]⟩
  simp only [List.map_map]
  conv => rhs; rw [← List.map_id (List.range N)]
  rfl

/-- C5 at a concrete input: three workers requested, three spawned, indices 0, 1, 2. -/
theorem C5_ctor_spawns_ThreadCount_witness :
    (∀ j, j < 3 → spawnOk j = 0)
    ∧ (ThreadPool_ctor 16384 spawnOk 3).Threads.length = 3
    ∧ (ThreadPool_ctor 16384 spawnOk 3).Threads.map Thread.ThreadID = List.range 3 :=
  have hok : ∀ j, j < 3 → spawnOk j = 0 := fun _ _ => rfl
  have h := C5_ctor_spawns_ThreadCount 16384 spawnOk 3 hok
  ⟨hok, h.2.1, h.2.2.1⟩

/-- C5 as stated fails for `N = 0`: the constructor spawns no worker, not one; the pool
has no worker with index 0 to step. -/
theorem C5_counterexample_zero :
    (ThreadPool_ctor 16384 spawnOk 0).Threads = []
    ∧ (ThreadPool_ctor 16384 spawnOk 0).Threads.length ≠ max 0 1
    ∧ (ThreadPool_ctor 16384 spawnOk 0).events = []
    ∧ (ThreadPool_init 0).Threads = []
    ∧ step (ThreadPool_init 0) (Action.worker 0) = none := by
  have h : ThreadPool_ctor 16384 spawnOk 0
      = { Threads := [], slot := 0, error := none, terminated := false, events := [] } := by
    unfold ThreadPool_ctor
    rw [ThreadPool_ctor_loop]
    simp
  rw [h]
  decide

end ThreadPool
